import Mathlib

/-!
Verification of the iget downloader and extractor core (src/iget.py).

The embedding models the pure control flow of the source. External
collaborators are passed in as explicit parameters:
they are the HTTP fetch plus file write (a per-attempt event trace),
the byte-format sniffer (the stdlib imghdr.what collaborator, where
none models the Python value None for unrecognized bytes),
the destination directory listing, and the browser session
(a sequence of visible-thumbnail counts).
Python string builtins used by the source (sorted, startswith, splitext,
int, lower, str slicing, zero-padded decimal formatting) are modelled by
executable functions over character lists, because the corresponding
Lean library functions do not evaluate inside the kernel.
-/

namespace Iget

/-- Raw bytes of an HTTP response body, one natural number per byte. -/
abbrev Body := List Nat

/-- One iteration of the retry loop in download (src/iget.py lines 164-186)
performs requests.get followed by open(path) and f.write(response.content).
The event says how far that got:
fetchError models an exception raised before the file was created
(requests.get failed, or open itself failed), leaving the file state
unchanged; writeError models an exception raised by f.write after
open(path, wb) had already created and truncated the file, leaving the
file present with the content written so far; ok models a completed
fetch and write of the full body. -/
inductive AttemptEv where
  | fetchError : AttemptEv
  | writeError (w : Body) : AttemptEv
  | ok (body : Body) : AttemptEv
deriving DecidableEq

/-- Whether the attempt event is a transient transport or IO error
(the except branch of the loop fires before the sniffing line). -/
def isTransient : AttemptEv → Bool
  | .fetchError => true
  | .writeError _ => true
  | .ok _ => false

/-- Terminal outcome of one download task, per the logging calls of
download: Success (logger.info), unsupported format (logger.error with
the unsupported-file-format message), exhausted retries (logger.error
with the maximum-download-attempts message). -/
inductive Outcome where
  | success (ext : String) : Outcome
  | unsupported : Outcome
  | exhausted : Outcome
deriving DecidableEq

/-- State of the destination directory and loop counter when download
returns: bare is the content of the extensionless file at
os.path.join(dst, prefix) if that file is still present, saved is the
renamed image file (its basename and content) if shutil.move ran, and
tries is the final value of the tries counter. -/
structure DownloadResult where
  outcome : Outcome
  bare : Option Body
  saved : Option (String × Body)
  tries : Nat
deriving DecidableEq

/-- FORMAT_EXT of src/iget.py lines 77-85: the supported sniffed formats
and the extension appended for each. -/
def FORMAT_EXT : List (String × String) :=
  [("jpg", ".jpg"), ("jpeg", ".jpg"), ("png", ".png"), ("svg", ".svg"),
   ("webp", ".webp"), ("bmp", ".bmp"), ("ico", ".ico")]

/-- Python dict lookup FORMAT_EXT.get(key), returning none when the key
is absent (Python None). -/
def formatExtGet (key : String) : Option String :=
  (FORMAT_EXT.find? (fun p => p.1 == key)).map (fun p => p.2)

/-- Python str.lower restricted to ASCII, which covers every tag imghdr
can return. -/
def pyLower (s : String) : String := ⟨s.data.map Char.toLower⟩

/-- The try block of one iteration of the retry loop in download
(src/iget.py lines 165-179), given the attempt event and the current
content of the extensionless file at path. It either raises, written
inl with the file state the exception left (a transport or IO error, or
AttributeError from imghdr.what(path).lower() when the sniffer returned
None), or breaks out of the loop, written inr with the final outcome,
bare file and saved file. On a recognized supported format the file is
renamed to path plus extension (shutil.move); on a recognized
unsupported format it is removed (os.remove). -/
def attemptStep (sniff : Body → Option String) (pfx : String) (ev : AttemptEv)
    (bare : Option Body) : Option Body ⊕ (Outcome × Option Body × Option (String × Body)) :=
  match ev with
  | .fetchError => .inl bare
  | .writeError w => .inl (some w)
  | .ok body =>
    match sniff body with
    | none => .inl (some body)
    | some s =>
      match formatExtGet (pyLower s) with
      | some ext => .inr (.success ext, none, some (pfx ++ ext, body))
      | none => .inr (.unsupported, none, none)

/-- The while-True retry loop of download (src/iget.py lines 164-186).
Each iteration increments tries (the event for attempt number tries is
trace tries, attempts counted from 1) and runs the try block; on an
exception the except branch retries while tries < 3, else it logs the
maximum-attempts error and breaks. Because tries starts at 0 and the
guard is checked after each increment, the loop runs at most 3
iterations; remaining counts the retries still allowed, so remaining
equals 2 - tries throughout and the source guard tries < 3 after the
increment is exactly remaining > 0. -/
def downloadAux (sniff : Body → Option String) (trace : Nat → AttemptEv)
    (pfx : String) : Nat → Nat → Option Body → DownloadResult
  | remaining, tries, bare =>
    match attemptStep sniff pfx (trace (tries + 1)) bare with
    | .inr (o, br, sv) => ⟨o, br, sv, tries + 1⟩
    | .inl bare2 =>
      match remaining with
      | r + 1 => downloadAux sniff trace pfx r (tries + 1) bare2
      | 0 => ⟨.exhausted, bare2, none, tries + 1⟩

/-- download(url, dst, prefix, logger, timeout, proxies) of src/iget.py
lines 158-187. The url is passed to requests.get and to the log lines
only, so it influences the result solely through the response trace; dst
only prefixes the paths, so file names in the result are basenames
inside dst. Logging is a side channel and is not modelled. -/
def download (sniff : Body → Option String) (trace : Nat → AttemptEv)
    (url dst pfx : String) : DownloadResult :=
  downloadAux sniff trace pfx 2 0 none

/-- Basenames of the files a finished download task left in the
destination directory. -/
def filesAfter (r : DownloadResult) (pfx : String) : List String :=
  (match r.bare with
   | some _ => [pfx]
   | none => []) ++
  (match r.saved with
   | some p => [p.1]
   | none => [])

/-- Decimal digit character for a digit value below 10, as Python str
formatting produces it. -/
def digitChar (d : Nat) : Char := Char.ofNat (48 + d)

/-- Decimal digit characters of n, most significant first, computed with
explicit fuel so that the definition is structurally recursive. The fuel
argument is always called with fuel greater than n, and each recursive
step divides n by 10, so the zero-fuel branch is never reached from
decChars. -/
def decCharsAux : Nat → Nat → List Char
  | 0, _ => []
  | fuel + 1, n =>
    if n < 10 then [digitChar n]
    else decCharsAux fuel (n / 10) ++ [digitChar (n % 10)]

/-- Decimal digit characters of n, most significant first. -/
def decChars (n : Nat) : List Char := decCharsAux (n + 1) n

/-- Python zero-padded width-4 decimal formatting of a natural number,
as the 04d format specification used at src/iget.py line 198 renders it:
the decimal digits, left padded with zero characters to length 4. -/
def pyFormat04 (n : Nat) : String :=
  ⟨List.replicate (4 - (decChars n).length) '0' ++ decChars n⟩

/-- One step of reading a decimal digit string most significant first. -/
def decStep (a : Nat) (c : Char) : Nat := a * 10 + (c.toNat - 48)

/-- Value of a decimal digit character list, most significant first. -/
def decodeChars (cs : List Char) : Nat := cs.foldl decStep 0

/-- The per-task filename segment built at src/iget.py line 198: the
prefix, an underscore and the zero-padded index. -/
def taskName (pfx : String) (idx : Nat) : String := pfx ++ "_" ++ pyFormat04 idx

/-- The submission loop of download_many (src/iget.py lines 189-199):
for idx, url in enumerate(urls, offset), one download task per url is
submitted with the filename segment taskName pfx idx. The returned list
records, in submission order, each url with its assigned segment. -/
def downloadManyTasks : List String → Nat → String → List (String × String)
  | [], _, _ => []
  | url :: rest, idx, pfx => (url, taskName pfx idx) :: downloadManyTasks rest (idx + 1) pfx

/-- download_many(urls, dst, offset, prefix, logger, workers, ...) of
src/iget.py lines 189-199, viewed as the task assignment it dispatches.
The workers argument only sizes the thread pool
(ThreadPoolExecutor(max_workers=workers)) and the indices are computed
in the submission loop before any worker runs, so the assignment does
not depend on it. Directory creation and the pool wait are filesystem
and timing effects outside this model. -/
def downloadMany (urls : List String) (offset : Nat) (pfx : String)
    (workers : Nat) : List (String × String) :=
  downloadManyTasks urls offset pfx

/-- Lexicographic comparison of character lists by code point, the
ordering Python uses for str comparison and hence for sorted(). -/
def charListLe : List Char → List Char → Bool
  | [], _ => true
  | _ :: _, [] => false
  | a :: as, b :: bs =>
    if a < b then true
    else if b < a then false
    else charListLe as bs

/-- Python string less-or-equal, by code points. -/
def strLe (a b : String) : Bool := charListLe a.data b.data

/-- Python sorted() on strings: any sorting algorithm computes the same
list, modelled by insertion sort over the code-point order. -/
def pySorted (l : List String) : List String :=
  List.insertionSort (fun a b => strLe a b = true) l

/-- Whether the first character list is an initial segment of the
second. -/
def charListPre : List Char → List Char → Bool
  | [], _ => true
  | _ :: _, [] => false
  | a :: as, b :: bs => a == b && charListPre as bs

/-- Python str.startswith, by characters. -/
def pyStartsWith (s p : String) : Bool := charListPre p.data s.data

/-- Index of the last occurrence of c in cs, if any. -/
def rfindIdx (cs : List Char) (c : Char) : Option Nat :=
  ((cs.enum.filter (fun p => p.2 == c)).getLast?).map (fun p => p.1)

/-- os.path.splitext on a bare filename (no directory separators): split
at the last dot, except that a leading run of dots never starts an
extension, so a name with no dot after its leading dots keeps an empty
extension. -/
def pySplitext (s : String) : String × String :=
  match rfindIdx s.data '.' with
  | none => (s, "")
  | some i =>
    match s.data.findIdx? (fun c => c != '.') with
    | none => (s, "")
    | some j =>
      if j < i then (⟨s.data.take i⟩, ⟨s.data.drop i⟩) else (s, "")

/-- Python string slicing s[n:], by characters. -/
def strDrop (s : String) (n : Nat) : String := ⟨s.data.drop n⟩

/-- Python string length, in characters. -/
def strLen (s : String) : Nat := s.data.length

/-- The whitespace characters Python int() strips from a str argument,
restricted to ASCII. -/
def isPySpace (c : Char) : Bool :=
  c == ' ' || c == '\t' || c == '\n' || c == '\r' || c == (Char.ofNat 11) || c == (Char.ofNat 12)

/-- Strip leading and trailing whitespace from a character list. -/
def trimChars (cs : List Char) : List Char :=
  ((cs.dropWhile isPySpace).reverse.dropWhile isPySpace).reverse

/-- Python int() applied to a string: strip whitespace, allow one
optional sign, then require a nonempty run of decimal digits; none
models the ValueError raised otherwise. Digit-group underscores, which
Python also accepts, are not modelled; no filename in any claim uses
them. -/
def pyInt? (s : String) : Option Int :=
  match trimChars s.data with
  | '+' :: ds =>
    if !ds.isEmpty && ds.all Char.isDigit then some (decodeChars ds) else none
  | '-' :: ds =>
    if !ds.isEmpty && ds.all Char.isDigit then some (-(decodeChars ds : Int)) else none
  | ds =>
    if !ds.isEmpty && ds.all Char.isDigit then some (decodeChars ds) else none

/-- The offset computation of the main block, src/iget.py lines 443-447:
filenames is the sorted list of entries of the destination directory
that start with the prefix; if it is nonempty the offset is
int(os.path.splitext(filenames[-1])[0][len(prefix)+1:]) + 1, otherwise 1.
none models the int() call raising ValueError. -/
def computeOffset (listing : List String) (pfx : String) : Option Int :=
  match (pySorted (listing.filter (fun f => pyStartsWith f pfx))).getLast? with
  | none => some 1
  | some last =>
    (pyInt? (strDrop (pySplitext last).1 (strLen pfx + 1))).map (fun k => k + 1)

/-- The discovery loop of google_extract_urls (src/iget.py lines
232-251) for iterations whose element query succeeds: obs t is the
number of thumbnail elements found at iteration t, n the requested
count, prevLen the length of thumbs_prev (initially the empty list).
The loop breaks when the count reaches n or equals the previous count;
otherwise it scrolls and repeats. The source loop has no bound of its
own, so the model runs on fuel and returns none when the fuel is spent
with the loop still running; isSome of the result is termination within
that many iterations. -/
def extractLoop (obs : Nat → Nat) (n : Nat) : Nat → Nat → Nat → Option Nat
  | 0, _, _ => none
  | fuel + 1, t, prevLen =>
    let c := obs t
    if n ≤ c then some c
    else if c = prevLen then some c
    else extractLoop obs n fuel (t + 1) c

/-- The discovery loop started as the source starts it, with
thumbs_prev the empty list. -/
def extract (obs : Nat → Nat) (n : Nat) (fuel : Nat) : Option Nat :=
  extractLoop obs n fuel 0 0

/-- Bytes of a plain-text body, which imghdr.what cannot recognize. -/
def plainText : Body := [104, 101, 108, 108, 111]

/-- Sniffer behavior on a body imghdr recognizes as nothing: the Python
call imghdr.what(path) returns None. -/
def sniffNone : Body → Option String := fun _ => none

/-- Sniffer behavior on a GIF body: imghdr recognizes the format, but
FORMAT_EXT does not list it. -/
def sniffGif : Body → Option String := fun _ => some ("gif")

/-- Sniffer behavior on a PNG body. -/
def sniffPng : Body → Option String := fun _ => some ("png")

/-- Leading bytes of a PNG payload. -/
def pngBody : Body := [137, 80, 78, 71]

/-- A trace whose every attempt fetches and writes the same body. -/
def traceOkText : Nat → AttemptEv := fun _ => .ok plainText

/-- A trace whose first two attempts raise during the fetch and whose
third attempt succeeds with a PNG body. -/
def traceTwoErrors : Nat → AttemptEv := fun t => if t ≤ 2 then .fetchError else .ok pngBody

/-- A trace whose every attempt raises during the fetch, before the
file is created. -/
def traceAllFetch : Nat → AttemptEv := fun _ => .fetchError

/-- A trace whose every attempt raises inside f.write, after
open(path, wb) created and truncated the file. -/
def traceWriteFail : Nat → AttemptEv := fun _ => .writeError []

/-- A trace whose first attempt succeeds with a PNG body. -/
def traceOkPng : Nat → AttemptEv := fun _ => .ok pngBody

/-- A destination directory listing holding img_0001.jpg through
img_0007.png, the fixture of the offset test property. -/
def imgListing : List String :=
  ["img_0001.jpg", "img_0002.jpg", "img_0003.jpg", "img_0004.jpg",
   "img_0005.jpg", "img_0006.jpg", "img_0007.png"]

/-- Ten distinct urls, the fixture of the naming test property. -/
def urlsTen : List String :=
  ["u0", "u1", "u2", "u3", "u4", "u5", "u6", "u7", "u8", "u9"]

/-- A browser session that always shows five thumbnails. -/
def obsConstFive : Nat → Nat := fun _ => 5

theorem downloadAux_tries_le (sniff : Body → Option String) (trace : Nat → AttemptEv)
    (pfx : String) :
    ∀ (remaining tries : Nat) (bare : Option Body),
      (downloadAux sniff trace pfx remaining tries bare).tries ≤ tries + 1 + remaining := by
  intro remaining
  induction remaining with
  | zero =>
    intro tries bare
    unfold downloadAux
    cases attemptStep sniff pfx (trace (tries + 1)) bare with
    | inl bare2 => simp
    | inr done => obtain ⟨o, br, sv⟩ := done; simp
  | succ r ih =>
    intro tries bare
    unfold downloadAux
    cases attemptStep sniff pfx (trace (tries + 1)) bare with
    | inl bare2 => exact le_trans (ih (tries + 1) bare2) (by omega)
    | inr done => obtain ⟨o, br, sv⟩ := done; simp

theorem attemptStep_inr_bare_none (sniff : Body → Option String) (pfx : String)
    (ev : AttemptEv) (bare : Option Body) (o : Outcome) (br : Option Body)
    (sv : Option (String × Body))
    (h : attemptStep sniff pfx ev bare = .inr (o, br, sv)) : br = none := by
  cases ev with
  | fetchError => simp [attemptStep] at h
  | writeError w => simp [attemptStep] at h
  | ok body =>
    simp only [attemptStep] at h
    cases hs : sniff body with
    | none => simp only [hs] at h; exact absurd h (by simp)
    | some s =>
      simp only [hs] at h
      cases he : formatExtGet (pyLower s) with
      | none =>
        simp only [he, Sum.inr.injEq, Prod.mk.injEq] at h
        exact h.2.1.symm
      | some ext =>
        simp only [he, Sum.inr.injEq, Prod.mk.injEq] at h
        exact h.2.1.symm

theorem downloadAux_bare_or_saved (sniff : Body → Option String) (trace : Nat → AttemptEv)
    (pfx : String) :
    ∀ (remaining tries : Nat) (bare : Option Body),
      (downloadAux sniff trace pfx remaining tries bare).bare = none
      ∨ (downloadAux sniff trace pfx remaining tries bare).saved = none := by
  intro remaining
  induction remaining with
  | zero =>
    intro tries bare
    unfold downloadAux
    cases hst : attemptStep sniff pfx (trace (tries + 1)) bare with
    | inl bare2 => exact Or.inr rfl
    | inr done =>
      obtain ⟨o, br, sv⟩ := done
      exact Or.inl (attemptStep_inr_bare_none sniff pfx (trace (tries + 1)) bare o br sv hst)
  | succ r ih =>
    intro tries bare
    unfold downloadAux
    cases hst : attemptStep sniff pfx (trace (tries + 1)) bare with
    | inl bare2 => exact ih (tries + 1) bare2
    | inr done =>
      obtain ⟨o, br, sv⟩ := done
      exact Or.inl (attemptStep_inr_bare_none sniff pfx (trace (tries + 1)) bare o br sv hst)

theorem attemptStep_saved_ext (sniff : Body → Option String) (pfx : String)
    (ev : AttemptEv) (bare : Option Body) (o : Outcome) (br : Option Body)
    (nm : String) (b : Body)
    (h : attemptStep sniff pfx ev bare = .inr (o, br, some (nm, b))) :
    ∃ s ext, sniff b = some s ∧ formatExtGet (pyLower s) = some ext ∧ nm = pfx ++ ext := by
  cases ev with
  | fetchError => simp [attemptStep] at h
  | writeError w => simp [attemptStep] at h
  | ok body =>
    simp only [attemptStep] at h
    cases hs : sniff body with
    | none => simp only [hs] at h; exact absurd h (by simp)
    | some s =>
      simp only [hs] at h
      cases he : formatExtGet (pyLower s) with
      | none => simp only [he] at h; simp at h
      | some ext =>
        simp only [he, Sum.inr.injEq, Prod.mk.injEq, Option.some.injEq] at h
        obtain ⟨-, -, h1, h2⟩ := h
        exact ⟨s, ext, by rw [h2] at hs; exact hs, he, h1.symm⟩

theorem downloadAux_saved_ext (sniff : Body → Option String) (trace : Nat → AttemptEv)
    (pfx : String) :
    ∀ (remaining tries : Nat) (bare : Option Body) (nm : String) (b : Body),
      (downloadAux sniff trace pfx remaining tries bare).saved = some (nm, b) →
      ∃ s ext, sniff b = some s ∧ formatExtGet (pyLower s) = some ext ∧ nm = pfx ++ ext := by
  intro remaining
  induction remaining with
  | zero =>
    intro tries bare nm b h
    unfold downloadAux at h
    cases hst : attemptStep sniff pfx (trace (tries + 1)) bare with
    | inl bare2 => rw [hst] at h; simp at h
    | inr done =>
      obtain ⟨o, br, sv⟩ := done
      rw [hst] at h
      simp only at h
      rw [h] at hst
      exact attemptStep_saved_ext sniff pfx (trace (tries + 1)) bare o br nm b hst
  | succ r ih =>
    intro tries bare nm b h
    unfold downloadAux at h
    cases hst : attemptStep sniff pfx (trace (tries + 1)) bare with
    | inl bare2 => rw [hst] at h; exact ih (tries + 1) bare2 nm b h
    | inr done =>
      obtain ⟨o, br, sv⟩ := done
      rw [hst] at h
      simp only at h
      rw [h] at hst
      exact attemptStep_saved_ext sniff pfx (trace (tries + 1)) bare o br nm b hst

theorem downloadAux_transient_step (sniff : Body → Option String) (trace : Nat → AttemptEv)
    (pfx : String) (r tries : Nat) (bare : Option Body)
    (h : isTransient (trace (tries + 1)) = true) :
    ∃ bare2, downloadAux sniff trace pfx (r + 1) tries bare
      = downloadAux sniff trace pfx r (tries + 1) bare2 := by
  cases ht : trace (tries + 1) with
  | fetchError =>
    refine ⟨bare, ?_⟩
    conv_lhs => rw [downloadAux, ht]
    rfl
  | writeError w =>
    refine ⟨some w, ?_⟩
    conv_lhs => rw [downloadAux, ht]
    rfl
  | ok body => rw [ht] at h; exact absurd h (by simp [isTransient])

theorem downloadAux_ok_supported (sniff : Body → Option String) (trace : Nat → AttemptEv)
    (pfx : String) (remaining tries : Nat) (bare : Option Body) (b : Body) (s ext : String)
    (h3 : trace (tries + 1) = .ok b) (hs : sniff b = some s)
    (he : formatExtGet (pyLower s) = some ext) :
    downloadAux sniff trace pfx remaining tries bare
      = ⟨.success ext, none, some (pfx ++ ext, b), tries + 1⟩ := by
  conv_lhs => rw [downloadAux, h3]
  simp only [attemptStep, hs, he]

/-- Claim C1: the source intends a body of unsupported sniffed format to
leave no file behind, and does so when imghdr recognizes the format as
something outside FORMAT_EXT; but when the sniffer recognizes nothing at
all (imghdr.what returns None, for example on plain text), the call
imghdr.what(path).lower() raises AttributeError, the generic except
branch retries twice more, and download returns leaving the extensionless
file in the destination directory. This theorem evaluates the embedded
download at that failing input. -/
theorem C1_unrecognized_body_leaves_file :
    sniffNone plainText = none
    ∧ download sniffNone traceOkText ("http://host/a.jpg") ("dst") ("img_0001")
        = ⟨.exhausted, some plainText, none, 3⟩
    ∧ filesAfter (download sniffNone traceOkText ("http://host/a.jpg") ("dst") ("img_0001"))
        ("img_0001") = [("img_0001" : String)]
    ∧ download sniffGif traceOkText ("http://host/a.jpg") ("dst") ("img_0001")
        = ⟨.unsupported, none, none, 1⟩ :=
  ⟨rfl, rfl, rfl, rfl⟩

/-- Claim C2: the invariant that every persisted file carries the
extension of its sniffed format fails on the code: for a body the
sniffer cannot recognize, the extensionless temporary file at the task
prefix is persisted (see C1), so a persisted file without any extension
remains. This theorem evaluates download at that failing input and shows
the leftover name has an empty splitext extension. -/
theorem C2_extensionless_file_persisted :
    filesAfter (download sniffNone traceOkText ("http://host/pic.png") ("dst") ("img_0002"))
        ("img_0002") = [("img_0002" : String)]
    ∧ pySplitext ("img_0002") = (("img_0002" : String), ("" : String)) :=
  ⟨rfl, rfl⟩

/-- Claim C3: the code does stop after an UnsupportedFormat outcome that
comes from a recognized-but-unsupported format, but for a body whose
sniffed format is unrecognized (also outside the supported set) the
attempt counter keeps increasing: download issues three fetch attempts
in total. This theorem evaluates download at that failing input. -/
theorem C3_refetches_after_unrecognized_sniff :
    sniffNone plainText = none
    ∧ (download sniffNone traceOkText ("http://host/b") ("dst") ("img_0003")).tries = 3
    ∧ (download sniffNone traceOkText ("http://host/b") ("dst") ("img_0003")).outcome
        = .exhausted :=
  ⟨rfl, rfl, rfl⟩

/-- Claim C4: a task whose first two attempts raise a transient error
and whose third attempt fetches a body of supported sniffed format ends
in Success with attempt counter 3, and no task ever makes more than 3
fetch attempts. -/
theorem C4_two_transient_then_success (sniff : Body → Option String)
    (trace : Nat → AttemptEv) (url dst pfx s ext : String) (b : Body)
    (h1 : isTransient (trace 1) = true) (h2 : isTransient (trace 2) = true)
    (h3 : trace 3 = .ok b) (hs : sniff b = some s)
    (he : formatExtGet (pyLower s) = some ext) :
    download sniff trace url dst pfx = ⟨.success ext, none, some (pfx ++ ext, b), 3⟩
    ∧ ∀ (sn : Body → Option String) (tr : Nat → AttemptEv) (u d p : String),
        (download sn tr u d p).tries ≤ 3 := by
  constructor
  · obtain ⟨b1, e1⟩ := downloadAux_transient_step sniff trace pfx 1 0 none h1
    obtain ⟨b2, e2⟩ := downloadAux_transient_step sniff trace pfx 0 1 b1 h2
    unfold download
    rw [e1, e2]
    exact downloadAux_ok_supported sniff trace pfx 0 2 b2 b s ext h3 hs he
  · intro sn tr u d p
    exact le_trans (downloadAux_tries_le sn tr p 2 0 none) (by omega)

theorem C4_witness :
    (isTransient (traceTwoErrors 1) = true ∧ isTransient (traceTwoErrors 2) = true
      ∧ traceTwoErrors 3 = .ok pngBody ∧ sniffPng pngBody = some ("png")
      ∧ formatExtGet (pyLower ("png")) = some (".png"))
    ∧ download sniffPng traceTwoErrors ("http://host/x") ("dst") ("img_0005")
        = ⟨.success (".png"), none, some (("img_0005.png" : String), pngBody), 3⟩ := by
  refine ⟨⟨rfl, rfl, rfl, rfl, rfl⟩, ?_⟩
  exact (C4_two_transient_then_success sniffPng traceTwoErrors ("http://host/x") ("dst")
    ("img_0005") ("png") (".png") pngBody rfl rfl rfl rfl rfl).1

/-- Claim C5, amended: when the transient error of every attempt strikes
during the fetch itself, before the destination file is created,
download ends in Exhausted after 3 attempts, propagates nothing, and
leaves no file. (When the error instead strikes inside the body write,
after open created the file, the partial extensionless file stays
behind; see the counterexample.) -/
theorem C5_all_fetch_errors_exhausted_no_file (sniff : Body → Option String)
    (trace : Nat → AttemptEv) (url dst pfx : String)
    (h1 : trace 1 = .fetchError) (h2 : trace 2 = .fetchError) (h3 : trace 3 = .fetchError) :
    download sniff trace url dst pfx = ⟨.exhausted, none, none, 3⟩
    ∧ filesAfter (download sniff trace url dst pfx) pfx = [] := by
  have h : download sniff trace url dst pfx = ⟨.exhausted, none, none, 3⟩ := by
    unfold download
    simp only [downloadAux, attemptStep, h1, h2, h3]
  exact ⟨h, by rw [h]; rfl⟩

theorem C5_witness :
    (traceAllFetch 1 = .fetchError ∧ traceAllFetch 2 = .fetchError
      ∧ traceAllFetch 3 = .fetchError)
    ∧ download sniffPng traceAllFetch ("http://host/x") ("dst") ("img_0007")
        = ⟨.exhausted, none, none, 3⟩
    ∧ filesAfter (download sniffPng traceAllFetch ("http://host/x") ("dst") ("img_0007"))
        ("img_0007") = [] := by
  refine ⟨⟨rfl, rfl, rfl⟩, ?_, ?_⟩
  · exact (C5_all_fetch_errors_exhausted_no_file sniffPng traceAllFetch ("http://host/x")
      ("dst") ("img_0007") rfl rfl rfl).1
  · exact (C5_all_fetch_errors_exhausted_no_file sniffPng traceAllFetch ("http://host/x")
      ("dst") ("img_0007") rfl rfl rfl).2

/-- Claim C5 as stated is false: a trace whose three attempts all raise
a transient IO error inside the body write ends in Exhausted but leaves
the empty extensionless file that open(path, wb) created, so a file
remains in the destination directory. -/
theorem C5_counterexample_write_error :
    traceWriteFail 1 = .writeError [] ∧ traceWriteFail 2 = .writeError []
    ∧ traceWriteFail 3 = .writeError []
    ∧ (download sniffPng traceWriteFail ("http://host/x") ("dst") ("img_0006")).outcome
        = .exhausted
    ∧ filesAfter (download sniffPng traceWriteFail ("http://host/x") ("dst") ("img_0006"))
        ("img_0006") = [("img_0006" : String)] :=
  ⟨rfl, rfl, rfl, rfl, rfl⟩

theorem digitChar_toNat : ∀ d, d < 10 → (digitChar d).toNat = 48 + d := by decide

theorem foldl_decStep_decCharsAux :
    ∀ (fuel n a : Nat), n < fuel →
      (decCharsAux fuel n).foldl decStep a = a * 10 ^ (decCharsAux fuel n).length + n := by
  intro fuel
  induction fuel with
  | zero => intro n a h; exact absurd h (Nat.not_lt_zero n)
  | succ f ih =>
    intro n a h
    by_cases h10 : n < 10
    · simp only [decCharsAux, if_pos h10, List.foldl_cons, List.foldl_nil,
        List.length_singleton, decStep, digitChar_toNat n h10, pow_one]
      omega
    · have hd : n / 10 < f := by
        have hlt : n / 10 < n := Nat.div_lt_self (by omega) (by omega)
        omega
      simp only [decCharsAux, if_neg h10, List.foldl_append, List.length_append,
        List.length_singleton]
      rw [ih (n / 10) a hd]
      simp only [List.foldl_cons, List.foldl_nil, decStep]
      rw [digitChar_toNat (n % 10) (Nat.mod_lt n (by omega))]
      rw [pow_succ, ← mul_assoc]
      omega

theorem foldl_decStep_replicate_zero : ∀ k, (List.replicate k '0').foldl decStep 0 = 0 := by
  have h0 : decStep 0 '0' = 0 := by decide
  intro k
  induction k with
  | zero => rfl
  | succ j ih => rw [List.replicate_succ, List.foldl_cons, h0]; exact ih

theorem decodeChars_pyFormat04 (n : Nat) : decodeChars (pyFormat04 n).data = n := by
  show List.foldl decStep 0 (List.replicate (4 - (decChars n).length) '0' ++ decChars n) = n
  rw [List.foldl_append, foldl_decStep_replicate_zero]
  unfold decChars
  rw [foldl_decStep_decCharsAux (n + 1) n 0 (Nat.lt_succ_self n)]
  simp

theorem taskName_inj (pfx : String) (a b : Nat) (h : taskName pfx a = taskName pfx b) :
    a = b := by
  have hd : (pfx ++ "_").data ++ (pyFormat04 a).data
      = (pfx ++ "_").data ++ (pyFormat04 b).data := by
    have h2 := congrArg String.data h
    unfold taskName at h2
    rwa [String.data_append, String.data_append] at h2
  have h3 := List.append_cancel_left hd
  calc a = decodeChars (pyFormat04 a).data := (decodeChars_pyFormat04 a).symm
    _ = decodeChars (pyFormat04 b).data := by rw [h3]
    _ = b := decodeChars_pyFormat04 b

theorem downloadManyTasks_getElem? :
    ∀ (urls : List String) (idx : Nat) (pfx : String) (i : Nat),
      (downloadManyTasks urls idx pfx)[i]?
        = urls[i]?.map (fun u => (u, taskName pfx (idx + i))) := by
  intro urls
  induction urls with
  | nil => intro idx pfx i; simp [downloadManyTasks]
  | cons u rest ih =>
    intro idx pfx i
    cases i with
    | zero => simp [downloadManyTasks]
    | succ j =>
      simp only [downloadManyTasks, List.getElem?_cons_succ]
      rw [ih (idx + 1) pfx j]
      have he : idx + 1 + j = idx + (j + 1) := by omega
      rw [he]

theorem mem_snd_downloadManyTasks :
    ∀ (urls : List String) (idx : Nat) (pfx : String) (x : String),
      x ∈ (downloadManyTasks urls idx pfx).map Prod.snd →
      ∃ j, idx ≤ j ∧ x = taskName pfx j := by
  intro urls
  induction urls with
  | nil => intro idx pfx x h; simp [downloadManyTasks] at h
  | cons u rest ih =>
    intro idx pfx x h
    simp only [downloadManyTasks, List.map_cons, List.mem_cons] at h
    rcases h with h | h
    · exact ⟨idx, le_refl idx, h⟩
    · obtain ⟨j, hj, hx⟩ := ih (idx + 1) pfx x h
      exact ⟨j, by omega, hx⟩

theorem nodup_snd_downloadManyTasks :
    ∀ (urls : List String) (idx : Nat) (pfx : String),
      ((downloadManyTasks urls idx pfx).map Prod.snd).Nodup := by
  intro urls
  induction urls with
  | nil => intro idx pfx; simp [downloadManyTasks]
  | cons u rest ih =>
    intro idx pfx
    simp only [downloadManyTasks, List.map_cons, List.nodup_cons]
    refine ⟨?_, ih (idx + 1) pfx⟩
    intro hmem
    obtain ⟨j, hj, hx⟩ := mem_snd_downloadManyTasks rest (idx + 1) pfx (taskName pfx idx) hmem
    have := taskName_inj pfx idx j hx
    omega

/-- Claim C7: downloadMany assigns the i-th url, in input order, the
filename segment of the prefix, an underscore and offset plus i
zero-padded to 4 digits; the assigned segments are pairwise distinct;
the assignment is independent of the worker count; and each task leaves
at most one file, so at most one file per url is produced. -/
theorem C7_sequential_distinct_names (urls : List String) (offset : Nat) (pfx : String)
    (workers workers2 : Nat) :
    (∀ (i : Nat) (u : String), urls[i]? = some u →
        (downloadMany urls offset pfx workers)[i]? = some (u, taskName pfx (offset + i)))
    ∧ ((downloadMany urls offset pfx workers).map Prod.snd).Nodup
    ∧ downloadMany urls offset pfx workers = downloadMany urls offset pfx workers2
    ∧ ∀ (sniff : Body → Option String) (trace : Nat → AttemptEv) (url dst nm : String),
        (filesAfter (download sniff trace url dst nm) nm).length ≤ 1 := by
  refine ⟨?_, nodup_snd_downloadManyTasks urls offset pfx, rfl, ?_⟩
  · intro i u hu
    show (downloadManyTasks urls offset pfx)[i]? = _
    rw [downloadManyTasks_getElem? urls offset pfx i, hu]
    rfl
  · intro sniff trace url dst nm
    unfold filesAfter
    rcases downloadAux_bare_or_saved sniff trace nm 2 0 none with h | h
    · have h2 : (download sniff trace url dst nm).bare = none := h
      rw [h2]
      cases (download sniff trace url dst nm).saved <;> simp
    · have h2 : (download sniff trace url dst nm).saved = none := h
      rw [h2]
      cases (download sniff trace url dst nm).bare <;> simp

theorem C7_witness :
    urlsTen[9]? = some (("u9" : String))
    ∧ (downloadMany urlsTen 1 ("img") 3)[9]? = some (("u9" : String), taskName ("img") (1 + 9))
    ∧ taskName ("img") (1 + 9) = ("img_0010" : String)
    ∧ ((downloadMany urlsTen 1 ("img") 3).map Prod.snd).Nodup := by
  refine ⟨rfl, ?_, by decide, ?_⟩
  · exact (C7_sequential_distinct_names urlsTen 1 ("img") 3 3).1 9 ("u9") rfl
  · exact (C7_sequential_distinct_names urlsTen 1 ("img") 3 3).2.1

theorem charListLe_refl : ∀ cs, charListLe cs cs = true := by
  intro cs
  induction cs with
  | nil => rfl
  | cons a as ih => simp only [charListLe, lt_irrefl, if_false, if_neg]; exact ih

theorem charListLe_total : ∀ as bs, charListLe as bs = true ∨ charListLe bs as = true := by
  intro as
  induction as with
  | nil => intro bs; exact Or.inl rfl
  | cons a as ih =>
    intro bs
    cases bs with
    | nil => exact Or.inr rfl
    | cons b bs2 =>
      rcases lt_trichotomy a b with h | h | h
      · left; simp [charListLe, if_pos h]
      · subst h
        rcases ih bs2 with h2 | h2
        · left; simp only [charListLe, lt_irrefl, if_neg]; exact h2
        · right; simp only [charListLe, lt_irrefl, if_neg]; exact h2
      · right; simp [charListLe, if_pos h]

theorem charListLe_trans :
    ∀ as bs cs, charListLe as bs = true → charListLe bs cs = true →
      charListLe as cs = true := by
  intro as
  induction as with
  | nil => intro bs cs h1 h2; rfl
  | cons a as ih =>
    intro bs cs h1 h2
    cases bs with
    | nil => simp [charListLe] at h1
    | cons b bs2 =>
      cases cs with
      | nil => simp [charListLe] at h2
      | cons c cs2 =>
        rcases lt_trichotomy a b with hab | hab | hab
        · rcases lt_trichotomy b c with hbc | hbc | hbc
          · have hac : a < c := lt_trans hab hbc
            simp [charListLe, if_pos hac]
          · subst hbc; simp [charListLe, if_pos hab]
          · simp [charListLe, if_neg (lt_asymm hbc), if_pos hbc] at h2
        · subst hab
          rcases lt_trichotomy a c with hbc | hbc | hbc
          · simp [charListLe, if_pos hbc]
          · subst hbc
            simp only [charListLe, lt_irrefl, if_neg] at h1 h2 ⊢
            exact ih bs2 cs2 h1 h2
          · simp [charListLe, if_neg (lt_asymm hbc), if_pos hbc] at h2
        · simp [charListLe, if_neg (lt_asymm hab), if_pos hab] at h1

theorem charListLe_antisymm :
    ∀ as bs, charListLe as bs = true → charListLe bs as = true → as = bs := by
  intro as
  induction as with
  | nil =>
    intro bs h1 h2
    cases bs with
    | nil => rfl
    | cons b bs2 => simp [charListLe] at h2
  | cons a as ih =>
    intro bs h1 h2
    cases bs with
    | nil => simp [charListLe] at h1
    | cons b bs2 =>
      rcases lt_trichotomy a b with hab | hab | hab
      · simp [charListLe, if_neg (lt_asymm hab), if_pos hab] at h2
      · subst hab
        simp only [charListLe, lt_irrefl, if_neg] at h1 h2
        rw [ih bs2 h1 h2]
      · simp [charListLe, if_neg (lt_asymm hab), if_pos hab] at h1

theorem getLast?_mem_of_eq_some {α : Type} :
    ∀ (l : List α) (a : α), l.getLast? = some a → a ∈ l := by
  intro l
  induction l with
  | nil => intro a h; simp at h
  | cons x t ih =>
    intro a h
    cases t with
    | nil => simp at h; simp [h]
    | cons y t2 =>
      rw [List.getLast?_cons_cons] at h
      exact List.mem_cons_of_mem x (ih a h)

theorem sorted_strLe_getLast? :
    ∀ (l : List String),
      List.Sorted (fun a b => strLe a b = true) l →
      ∀ x ∈ l, ∀ (m : String), l.getLast? = some m → strLe x m = true := by
  intro l
  induction l with
  | nil => intro _ x hx; simp at hx
  | cons a t ih =>
    intro hs x hx m hm
    cases t with
    | nil =>
      simp only [List.getLast?_singleton, Option.some.injEq] at hm
      simp only [List.mem_singleton] at hx
      subst hm; subst hx
      exact charListLe_refl x.data
    | cons b t2 =>
      rw [List.getLast?_cons_cons] at hm
      rcases List.mem_cons.mp hx with rfl | hx2
      · have hmem := getLast?_mem_of_eq_some (b :: t2) m hm
        exact (List.sorted_cons.mp hs).1 m hmem
      · exact ih (List.sorted_cons.mp hs).2 x hx2 m hm

theorem pySorted_getLast_max (l : List String) (hne : l ≠ []) :
    ∃ m, (pySorted l).getLast? = some m ∧ m ∈ l ∧ ∀ x ∈ l, strLe x m = true := by
  have htot : IsTotal String (fun a b => strLe a b = true) :=
    ⟨fun a b => charListLe_total a.data b.data⟩
  have htrans : IsTrans String (fun a b => strLe a b = true) :=
    ⟨fun a b c => charListLe_trans a.data b.data c.data⟩
  have hperm := List.perm_insertionSort (fun a b : String => strLe a b = true) l
  have hsort := @List.sorted_insertionSort String (fun a b => strLe a b = true)
    (fun a b => instDecidableEqBool (strLe a b) true) htot htrans l
  have hsne : pySorted l ≠ [] := by
    intro h0
    have hlen := hperm.length_eq
    rw [show List.insertionSort (fun a b : String => strLe a b = true) l = pySorted l
      from rfl, h0] at hlen
    exact hne (List.length_eq_zero.mp hlen.symm)
  refine ⟨(pySorted l).getLast hsne, List.getLast?_eq_getLast _ hsne, ?_, ?_⟩
  · exact hperm.mem_iff.mp (List.getLast_mem hsne)
  · intro x hx
    have hx2 : x ∈ pySorted l := hperm.mem_iff.mpr hx
    exact sorted_strLe_getLast? (pySorted l) hsort x hx2 ((pySorted l).getLast hsne)
      (List.getLast?_eq_getLast _ hsne)

theorem computeOffset_eq_last (listing : List String) (pfx : String) (m : String)
    (hm : m ∈ listing.filter (fun f => pyStartsWith f pfx))
    (hmax : ∀ x ∈ listing.filter (fun f => pyStartsWith f pfx), strLe x m = true) :
    computeOffset listing pfx
      = (pyInt? (strDrop (pySplitext m).1 (strLen pfx + 1))).map (fun k => k + 1) := by
  have hne : listing.filter (fun f => pyStartsWith f pfx) ≠ [] := by
    intro h0; rw [h0] at hm; simp at hm
  obtain ⟨m2, hlast, hmem2, hmax2⟩ := pySorted_getLast_max _ hne
  have heq : m2 = m := by
    have hd := charListLe_antisymm m2.data m.data (hmax m2 hmem2) (hmax2 m hm)
    cases m2
    cases m
    exact congrArg String.mk hd
  unfold computeOffset
  rw [hlast, heq]

/-- Claim C6: the offset computation filters the destination listing for
names starting with the prefix; when none match it returns 1, and
otherwise it returns the numeric suffix of the lexicographically last
matching name (the stem after the first prefix-length-plus-one
characters) plus 1. -/
theorem C6_offset_computation (listing : List String) (pfx : String) :
    (listing.filter (fun f => pyStartsWith f pfx) = [] →
      computeOffset listing pfx = some 1)
    ∧ ∀ (m : String) (k : Int),
        m ∈ listing.filter (fun f => pyStartsWith f pfx) →
        (∀ x ∈ listing.filter (fun f => pyStartsWith f pfx), strLe x m = true) →
        pyInt? (strDrop (pySplitext m).1 (strLen pfx + 1)) = some k →
        computeOffset listing pfx = some (k + 1) := by
  constructor
  · intro h
    unfold computeOffset
    rw [h]
    rfl
  · intro m k hm hmax hk
    rw [computeOffset_eq_last listing pfx m hm hmax, hk]
    rfl

theorem C6_witness :
    (("img_0007.png" : String) ∈ imgListing.filter (fun f => pyStartsWith f ("img"))
      ∧ pyInt? (strDrop (pySplitext ("img_0007.png")).1 (strLen ("img") + 1)) = some 7)
    ∧ computeOffset imgListing ("img") = some 8
    ∧ computeOffset ([] : List String) ("img") = some 1 := by
  refine ⟨⟨by decide, by decide⟩, ?_, ?_⟩
  · exact (C6_offset_computation imgListing ("img")).2 ("img_0007.png") 7
      (by decide) (by decide) (by decide)
  · exact (C6_offset_computation ([] : List String) ("img")).1 rfl

/-- Claim C10: when the lexicographically last prefix-matching entry of
the destination listing has a stem whose part after the first
prefix-length-plus-one characters is not an integer literal, for example
a file named exactly like the prefix, the int() call of the offset
computation raises ValueError instead of producing an integer, modelled
by computeOffset returning none. -/
theorem C10_offset_nonnumeric_raises (listing : List String) (pfx : String) :
    ∀ (m : String),
      m ∈ listing.filter (fun f => pyStartsWith f pfx) →
      (∀ x ∈ listing.filter (fun f => pyStartsWith f pfx), strLe x m = true) →
      pyInt? (strDrop (pySplitext m).1 (strLen pfx + 1)) = none →
      computeOffset listing pfx = none := by
  intro m hm hmax hk
  rw [computeOffset_eq_last listing pfx m hm hmax, hk]
  rfl

theorem C10_witness :
    (("img" : String) ∈ (["img"] : List String).filter (fun f => pyStartsWith f ("img"))
      ∧ pyInt? (strDrop (pySplitext ("img")).1 (strLen ("img") + 1)) = none)
    ∧ computeOffset (["img"] : List String) ("img") = none := by
  refine ⟨⟨by decide, by decide⟩, ?_⟩
  exact C10_offset_nonnumeric_raises (["img"] : List String) ("img") ("img")
    (by decide) (by decide) (by decide)

theorem extractLoop_stall_isSome (obs : Nat → Nat) (n : Nat) :
    ∀ (k fuel t prevLen : Nat), k + 2 ≤ fuel → obs (t + k + 1) = obs (t + k) →
      (extractLoop obs n fuel t prevLen).isSome = true := by
  intro k
  induction k with
  | zero =>
    intro fuel t prevLen hf hs
    obtain ⟨f, rfl⟩ : ∃ f, fuel = f + 2 := ⟨fuel - 2, by omega⟩
    simp only [extractLoop]
    by_cases h1 : n ≤ obs t
    · simp [h1]
    · simp only [if_neg h1]
      by_cases h2 : obs t = prevLen
      · simp [h2]
      · simp only [if_neg h2]
        by_cases h3 : n ≤ obs (t + 1)
        · simp [h3]
        · have he : obs (t + 1) = obs t := by simpa using hs
          simp [if_neg h3, he]
  | succ k ih =>
    intro fuel t prevLen hf hs
    obtain ⟨f, rfl⟩ : ∃ f, fuel = f + 1 := ⟨fuel - 1, by omega⟩
    simp only [extractLoop]
    by_cases h1 : n ≤ obs t
    · simp [h1]
    · simp only [if_neg h1]
      by_cases h2 : obs t = prevLen
      · simp [h2]
      · simp only [if_neg h2]
        apply ih f (t + 1) (obs t) (by omega)
        have he : t + 1 + k + 1 = t + (k + 1) + 1 := by omega
        have he2 : t + 1 + k = t + (k + 1) := by omega
        rw [he, he2]
        exact hs

theorem extractLoop_reach_isSome (obs : Nat → Nat) (n : Nat) :
    ∀ (d fuel t prevLen : Nat), d + 1 ≤ fuel → n ≤ obs (t + d) →
      (extractLoop obs n fuel t prevLen).isSome = true := by
  intro d
  induction d with
  | zero =>
    intro fuel t prevLen hf hn
    obtain ⟨f, rfl⟩ : ∃ f, fuel = f + 1 := ⟨fuel - 1, by omega⟩
    simp only [extractLoop]
    have hn2 : n ≤ obs t := by simpa using hn
    simp [hn2]
  | succ d ih =>
    intro fuel t prevLen hf hn
    obtain ⟨f, rfl⟩ : ∃ f, fuel = f + 1 := ⟨fuel - 1, by omega⟩
    simp only [extractLoop]
    by_cases h1 : n ≤ obs t
    · simp [h1]
    · simp only [if_neg h1]
      by_cases h2 : obs t = prevLen
      · simp [h2]
      · simp only [if_neg h2]
        apply ih f (t + 1) (obs t) (by omega)
        have he : t + 1 + d = t + (d + 1) := by omega
        rw [he]
        exact hn

/-- Claim C8: the discovery loop terminates once two consecutive
observed visible-thumbnail counts are equal, within k + 2 iterations
when the stall happens at observations k and k + 1, whatever the
requested count n (in particular when the stalled count is below n);
and it also terminates within j + 1 iterations when the count observed
at iteration j reaches n. -/
theorem C8_extraction_loop_terminates (obs : Nat → Nat) (n k : Nat)
    (hstall : obs (k + 1) = obs k) :
    (∀ fuel, k + 2 ≤ fuel → (extract obs n fuel).isSome = true)
    ∧ ∀ (j fuel : Nat), n ≤ obs j → j + 1 ≤ fuel → (extract obs n fuel).isSome = true := by
  constructor
  · intro fuel hf
    apply extractLoop_stall_isSome obs n k fuel 0 0 hf
    simpa using hstall
  · intro j fuel hn hf
    apply extractLoop_reach_isSome obs n j fuel 0 0 hf
    simpa using hn

theorem C8_witness :
    (obsConstFive 1 = obsConstFive 0 ∧ obsConstFive 0 < 10)
    ∧ (extract obsConstFive 10 2).isSome = true := by
  refine ⟨⟨rfl, by decide⟩, ?_⟩
  exact (C8_extraction_loop_terminates obsConstFive 10 0 rfl).1 2 (by omega)

end Iget
